import Mathlib

/-!
Shallow embedding of the legal-citation extraction core of `main.py`
(alias indexer, document locator, single-document citation extractor,
multi-document extractor), together with theorems settling the spec claims.

Modelling conventions, stated once here:

* Texts and aliases are `List Char`.  Python string operations (`lower`,
  `strip`, `split`, `in`, slicing) are embedded as explicit list functions.
* The character class of Python's Unicode `\w` is embedded for the character
  repertoire actually reachable in this system (ASCII alphanumerics,
  underscore, and the Cyrillic letters а–я/А–Я/ё/Ё the code's own regexes
  name); likewise `\s` covers Python's six ASCII whitespace characters.
* The external morphology analyzer (pymorphy3) is out of scope per the spec
  and is passed in as two oracle parameters: a lemmatizer
  `ℓ : List Char → List Char` (`normal_form`) and a paradigm generator
  `F : List Char → List (List Char)` (`lexeme`).
* The four complex citation regexes of `parse_legal_reference_v2` /
  `parse_legal_reference_multi_law` (article/point/subpoint finditer and the
  combined fragment patterns) only *produce* raw matched data that the
  downstream logic consumes; they are modelled as oracle fields of
  `RegexOracles` producing exactly the data the Python code extracts from the
  match objects (captured enumeration substrings, raw document mentions with
  spans, citation fragments with positions).  Everything the code then does
  with that data (enumeration parsing, precedence, scanning, distances,
  dedup) is embedded concretely.
* The alias patterns (`exact_pattern`, `compiled_pattern` from
  `create_flexible_pattern`) are embedded concretely as a tiny pattern AST
  (`PatElem`/`Pattern`) with backtracking match semantics, since several
  claims are about those very patterns.
* Python float threshold comparisons (`>= 0.6`, `>= 0.7`, ratio maxima) are
  embedded as exact rational comparisons via cross-multiplication; no claim's
  verdict depends on a float rounding boundary.
* Catalog document ids (JSON keys, "string convertible to integer" per the
  spec) are modelled as `Nat` directly; the `int(law_id)` conversion is the
  identity under this modelling.
-/

namespace LawLinks

/-- Python `\w` (word character) for the reachable repertoire:
ASCII alphanumerics, underscore, Cyrillic а–я, А–Я, ё, Ё. -/
def isWordChar (c : Char) : Bool :=
  c.isAlphanum || c = '_' ||
  (0x410 ≤ c.val && c.val ≤ 0x44F) || c.val = 0x451 || c.val = 0x401

/-- Python `\s`: space, tab, newline, carriage return, vertical tab, form feed. -/
def isSpaceChar (c : Char) : Bool :=
  c = ' ' || c = '\t' || c = '\n' || c.val = 13 || c.val = 11 || c.val = 12

/-- The character class `[а-яёa-z]` under `re.IGNORECASE`
(the alias tokenizer's word class in `create_flexible_pattern`). -/
def isAliasAlphaChar (c : Char) : Bool :=
  c.isAlpha || (0x410 ≤ c.val && c.val ≤ 0x44F) || c.val = 0x451 || c.val = 0x401

/-- The character class `[а-яА-Я]` (no ё) used by the enumeration item shapes. -/
def isCyrLetter (c : Char) : Bool :=
  (0x430 ≤ c.val && c.val ≤ 0x44F) || (0x410 ≤ c.val && c.val ≤ 0x42F)

/-- Python `str.lower` on one character (ASCII and Cyrillic). -/
def lowerChar (c : Char) : Char :=
  if 0x410 ≤ c.val && c.val ≤ 0x42F then Char.ofNat (c.val.toNat + 0x20)
  else if c.val = 0x401 then Char.ofNat 0x451
  else c.toLower

/-- Python `str.upper` on one character (ASCII and Cyrillic). -/
def upperChar (c : Char) : Char :=
  if 0x430 ≤ c.val && c.val ≤ 0x44F then Char.ofNat (c.val.toNat - 0x20)
  else if c.val = 0x451 then Char.ofNat 0x401
  else c.toUpper

def pyLower (cs : List Char) : List Char := cs.map lowerChar

def pyUpper (cs : List Char) : List Char := cs.map upperChar

/-- Python `str.strip()` (strip whitespace from both ends). -/
def stripWs (cs : List Char) : List Char :=
  ((cs.dropWhile isSpaceChar).reverse.dropWhile isSpaceChar).reverse

/-- One step of grouping a character into maximal runs of equal predicate value. -/
def runStep (p : Char → Bool) (c : Char) (acc : List (List Char)) : List (List Char) :=
  match acc with
  | (d :: t) :: rest => if p c = p d then (c :: d :: t) :: rest else [c] :: (d :: t) :: rest
  | _ => [[c]]

/-- Split a string into maximal runs of characters with equal `p`-value
(the behaviour of an alternation regex such as `[X]+|[^X]+` under finditer). -/
def splitRuns (p : Char → Bool) (cs : List Char) : List (List Char) :=
  cs.foldr (runStep p) []

/-- Python `str.split()` (split on whitespace runs, dropping empties). -/
def splitWs (cs : List Char) : List (List Char) :=
  (splitRuns isSpaceChar cs).filter (fun r =>
    match r with
    | c :: _ => !isSpaceChar c
    | [] => false)

/-- Python `str.split(',')`. -/
def splitComma : List Char → List (List Char)
  | [] => [[]]
  | c :: cs =>
    match splitComma cs with
    | [] => [[c]]
    | h :: t => if c = ',' then [] :: h :: t else (c :: h) :: t

/-- Join word lists with single spaces (Python `' '.join`). -/
def joinSp : List (List Char) → List Char
  | [] => []
  | [w] => w
  | w :: ws => w ++ ' ' :: joinSp ws

/-- `leadsL s cs`: `s` is a leading prefix of `cs`. -/
def leadsL : List Char → List Char → Bool
  | [], _ => true
  | _ :: _, [] => false
  | c :: cs, d :: ds => c = d && leadsL cs ds

/-- Python substring containment `needle in hay`. -/
def isSubstr (needle hay : List Char) : Bool :=
  (List.range (hay.length + 1)).any (fun i => leadsL needle (hay.drop i))

/-- Try to match `\s+W\s+` (case-insensitively) at the head of `cs`;
on success return the remainder after the match. -/
def tryConj (w : List Char) (cs : List Char) : Option (List Char) :=
  let ws1 := cs.takeWhile isSpaceChar
  if ws1.isEmpty then none
  else
    let r1 := cs.dropWhile isSpaceChar
    if leadsL w (pyLower r1) then
      let r2 := r1.drop w.length
      let ws2 := r2.takeWhile isSpaceChar
      if ws2.isEmpty then none else some (r2.dropWhile isSpaceChar)
    else none

/-- `re.sub(r'\s+W\s+', ',', cs, flags=re.IGNORECASE)` for a literal
lowercase word `W` (leftmost, non-overlapping; the greedy whitespace runs are
deterministic because `W` starts with a non-whitespace character). -/
def subConjGo (w : List Char) : Nat → List Char → List Char
  | 0, cs => cs
  | _ + 1, [] => []
  | fuel + 1, c :: cs =>
    if isSpaceChar c then
      match tryConj w (c :: cs) with
      | some rest => ',' :: subConjGo w fuel rest
      | none => c :: subConjGo w fuel cs
    else c :: subConjGo w fuel cs

def subConj (w cs : List Char) : List Char := subConjGo w cs.length cs

/-- `^\d+(?:[.-]\d+)*$` — the trailing group chain after the leading digits. -/
def artGroups : Nat → List Char → Bool
  | _, [] => true
  | 0, _ => false
  | fuel + 1, c :: cs =>
    (c = '.' || c = '-') &&
    (match cs with
     | d :: _ => d.isDigit
     | [] => false) &&
    artGroups fuel (cs.dropWhile (fun d => d.isDigit))

/-- Full match of `^\d+(?:[.-]\d+)*$` (article enumeration item shape). -/
def isArticleItem (cs : List Char) : Bool :=
  match cs with
  | [] => false
  | c :: _ => c.isDigit && artGroups cs.length (cs.dropWhile (fun d => d.isDigit))

/-- Full match of `^(?:\d+[а-яА-Я]?|[а-яА-Я])$` (point enumeration item shape). -/
def isPointItem (cs : List Char) : Bool :=
  match cs with
  | [] => false
  | c :: rest =>
    if c.isDigit then
      match rest.dropWhile (fun d => d.isDigit) with
      | [] => true
      | d :: t => isCyrLetter d && t.isEmpty
    else isCyrLetter c && rest.isEmpty

/-- Full match of `^(?:[а-яА-Я]\d*|\d+)$` (subpoint enumeration item shape). -/
def isSubpointItem (cs : List Char) : Bool :=
  match cs with
  | [] => false
  | c :: rest =>
    if isCyrLetter c then rest.all (fun d => d.isDigit)
    else c.isDigit && rest.all (fun d => d.isDigit)

/-- `parse_enumeration` from `parse_legal_reference_v2`: replace the
conjunctions и/или by commas, split on commas, strip, keep nonempty items of
the expected shape. -/
def parseEnumeration (valid : List Char → Bool) (cs : List Char) : List (List Char) :=
  let s1 := subConj ("и".data) cs
  let s2 := subConj ("или".data) s1
  (((splitComma s2).map stripWs).filter (fun i => !i.isEmpty && valid i))

/-- Output unit (`law_id`, `article`, `point_article`, `subpoint_article`). -/
structure CitationRecord where
  law_id : Option Nat
  article : Option (List Char)
  point_article : Option (List Char)
  subpoint_article : Option (List Char)
deriving DecidableEq

/-- Result construction of `parse_legal_reference_v2` (lines 383–429): the
subpoint/point/article expansion precedence over the found value lists. -/
def buildResultsV2 (law : Option Nat) (arts pts sps : List (List Char)) :
    List CitationRecord :=
  if 1 < sps.length then
    sps.map (fun s => ⟨law, arts.head?, pts.head?, some s⟩)
  else if 1 < pts.length then
    pts.map (fun p => ⟨law, arts.head?, some p, sps.head?⟩)
  else if 1 < arts.length then
    arts.map (fun a => ⟨law, some a, pts.head?, sps.head?⟩)
  else if !arts.isEmpty || !pts.isEmpty || !sps.isEmpty then
    [⟨law, arts.head?, pts.head?, sps.head?⟩]
  else
    [⟨law, none, none, none⟩]

/-! ### Alias pattern machinery

The generated regexes of `load_law_aliases_with_morphology` /
`create_flexible_pattern` consist only of escaped literals, `\s+` runs,
longest-first alternations of escaped literals, and `\b` assertions at the
two ends.  They are embedded as a small AST with backtracking (existential)
match semantics. -/

/-- One element of a generated alias pattern. -/
inductive PatElem where
  | lit : List Char → PatElem
  | ws : PatElem
  | alts : List (List Char) → PatElem
deriving DecidableEq

/-- A generated alias pattern: optional leading/trailing `\b`, body elements. -/
structure Pattern where
  leadB : Bool
  elems : List PatElem
  trailB : Bool
deriving DecidableEq

/-- All lengths of prefixes of `cs` that the element list can consume
(backtracking semantics of the concatenation of literals, `\s+`, and
alternations). -/
def elemsMatches : List PatElem → List Char → List Nat
  | [], _ => [0]
  | PatElem.lit s :: rest, cs =>
    if leadsL s cs then (elemsMatches rest (cs.drop s.length)).map (fun L => L + s.length)
    else []
  | PatElem.ws :: rest, cs =>
    let m := (cs.takeWhile isSpaceChar).length
    (List.range m).flatMap (fun j =>
      (elemsMatches rest (cs.drop (j + 1))).map (fun L => L + (j + 1)))
  | PatElem.alts fs :: rest, cs =>
    fs.flatMap (fun f =>
      if leadsL f cs then (elemsMatches rest (cs.drop f.length)).map (fun L => L + f.length)
      else [])

/-- Regex `\b`: a word boundary sits at offset `i` of `cs` iff exactly one of
the two adjacent positions holds a word character (ends count as non-word). -/
def boundaryAt (cs : List Char) (i : Nat) : Bool :=
  ((i != 0) && isWordChar (cs.getD (i - 1) ' ')) != isWordChar (cs.getD i ' ')

/-- `pattern.search(cs)`: some position admits a match satisfying the
boundary assertions. -/
def patSearch (p : Pattern) (cs : List Char) : Bool :=
  (List.range (cs.length + 1)).any (fun i =>
    (!p.leadB || boundaryAt cs i) &&
    (elemsMatches p.elems (cs.drop i)).any (fun L => !p.trailB || boundaryAt cs (i + L)))

/-- The exact pattern of an alias (lines 136–145): the escaped literal, with a
leading `\b` iff the alias starts with a word character and a trailing `\b`
iff it ends with one. -/
def mkExactPattern (a : List Char) : Pattern :=
  { leadB :=
      match a.head? with
      | some c => isWordChar c
      | none => false
    elems := [PatElem.lit a]
    trailB :=
      match a.getLast? with
      | some c => isWordChar c
      | none => false }

/-- `generate_word_forms`: the word itself plus its paradigm (`F`), all
lowercased, as a Python set (modelled as a first-occurrence-deduplicated list). -/
def genWordForms (F : List Char → List (List Char)) (w : List Char) : List (List Char) :=
  (pyLower w :: (F w).map pyLower).foldr
    (fun x acc => if acc.contains x then acc else x :: acc) []

/-- Sort surface forms by length, descending (`sorted(key=len, reverse=True)`;
longest-first so a longer inflected form is preferred over a shorter prefix). -/
def sortLenDesc (fs : List (List Char)) : List (List Char) :=
  List.insertionSort (fun a b : List Char => b.length ≤ a.length) fs

/-- A word token of the alias tokenizer (`^[а-яёa-z]+$` under IGNORECASE). -/
def isWordTok (t : List Char) : Bool := !t.isEmpty && t.all isAliasAlphaChar

/-- Body elements of `create_flexible_pattern` for the token runs of an alias. -/
def flexElems (F : List Char → List (List Char)) (toks : List (List Char)) : List PatElem :=
  toks.map (fun t =>
    if isWordTok t then
      let fs := genWordForms F t
      if 1 < fs.length && 3 < t.length then PatElem.alts (sortLenDesc fs)
      else PatElem.lit t
    else if (stripWs t).isEmpty then PatElem.ws
    else PatElem.lit t)

/-- `create_flexible_pattern` (lines 60–105): tokenize, inflection
alternations for long words with multiple forms, `\s+` for whitespace runs,
literal otherwise, `\b` at word-character ends. -/
def mkFlexPattern (F : List Char → List (List Char)) (a : List Char) : Pattern :=
  { leadB :=
      match a.head? with
      | some c => isWordChar c
      | none => false
    elems := flexElems F (splitRuns isAliasAlphaChar a)
    trailB :=
      match a.getLast? with
      | some c => isWordChar c
      | none => false }

/-! ### Alias indexer and document locator -/

/-- `normalize_text` with the morphology adapter's lemmatizer `ℓ`
(`morph.parse(w)[0].normal_form`): per whitespace-split word, strip non-word
characters; lemmatize if something remains, else keep the word; rejoin with
single spaces. -/
def normalizeText (ℓ : List Char → List Char) (cs : List Char) : List Char :=
  joinSp ((splitWs cs).map (fun w =>
    let clean := w.filter isWordChar
    if clean.isEmpty then w else ℓ clean))

/-- The optional `(?:[-./]\S*)?` suffix after the digits of a document number. -/
def numTail : List Char → (List Char × List Char)
  | [] => ([], [])
  | c :: cs =>
    if c = '-' || c = '.' || c = '/' then
      (c :: cs.takeWhile (fun d => !isSpaceChar d), cs.dropWhile (fun d => !isSpaceChar d))
    else ([], c :: cs)

/-- Worker for `re.findall(r'№\s*(\d+(?:[-./]\S*)?)', text)`. -/
def extrGo : Nat → List Char → List (List Char)
  | 0, _ => []
  | _, [] => []
  | fuel + 1, c :: cs =>
    if c = '№' then
      let r1 := cs.dropWhile isSpaceChar
      let ds := r1.takeWhile (fun d => d.isDigit)
      if ds.isEmpty then extrGo fuel cs
      else
        let r2 := r1.dropWhile (fun d => d.isDigit)
        let tr := numTail r2
        (ds ++ tr.1) :: extrGo fuel tr.2
    else extrGo fuel cs

/-- Extract all document reference numbers (`№…`) from a text. -/
def extractNumbers (cs : List Char) : List (List Char) := extrGo cs.length cs

/-- Python `num.rstrip('.,;:!?')`. -/
def rstripPunct (cs : List Char) : List Char :=
  (cs.reverse.dropWhile (fun c =>
    c = '.' || c = ',' || c = ';' || c = ':' || c = '!' || c = '?')).reverse

/-- Search for `stem[opts]?\b` (a doc-type pattern such as `указ[аеуыои]?\b`). -/
def searchOptEnd (stem : List Char) (opts : List Char) (cs : List Char) : Bool :=
  (List.range (cs.length + 1)).any (fun i =>
    leadsL stem (cs.drop i) &&
    (let j := i + stem.length
     (opts.contains (cs.getD j ' ') && boundaryAt cs (j + 1)) || boundaryAt cs j))

/-- Search for `stem[cls]+\b` (such as `распоряжен[иеюя]+\b`); since the class
characters are word characters, the boundary can only follow the maximal run. -/
def searchPlusEnd (stem : List Char) (cls : List Char) (cs : List Char) : Bool :=
  (List.range (cs.length + 1)).any (fun i =>
    leadsL stem (cs.drop i) &&
    (let j := i + stem.length
     let r := ((cs.drop j).takeWhile (fun c => cls.contains c)).length
     (1 ≤ r) && boundaryAt cs (j + r)))

/-- Detect the document-type keyword of the text (lines 180–192): the five
patterns are tried in dictionary order and the first hit wins. -/
def docTypeSearch (tl : List Char) : Option (List Char) :=
  if searchOptEnd ("указ".data) ("аеуыои".data) tl then some ("указ".data)
  else if searchPlusEnd ("распоряжен".data) ("иеюя".data) tl then some ("распоряжен".data)
  else if searchPlusEnd ("постановлен".data) ("иеюя".data) tl then some ("постановлен".data)
  else if searchOptEnd ("приказ".data) ("аеуыои".data) tl then some ("приказ".data)
  else if searchOptEnd ("закон".data) ("аеуыои".data) tl then some ("закон".data)
  else none

/-- `re.findall(r'\b[а-яёa-z]{4,}\b', alias_lower)`: the maximal word-character
runs that are purely alphabetic and at least 4 characters long. -/
def aliasContentWords (a : List Char) : List (List Char) :=
  (splitRuns isWordChar a).filter (fun r =>
    (match r with
     | c :: _ => isWordChar c
     | [] => false) &&
    4 ≤ r.length && r.all isAliasAlphaChar)

/-- Number of alias content words occurring (as substrings) in the text. -/
def countIn (ws : List (List Char)) (tl : List Char) : Nat :=
  (ws.filter (fun w => isSubstr w tl)).length

/-- One alias match descriptor (`all_aliases` entry). -/
structure AliasEntry where
  original : List Char
  normalized : List Char
  law_id : Nat
  len : Nat
  word_count : Nat
  exactPat : Pattern
  flexPat : Pattern
deriving DecidableEq

/-- Descending alias-length order for the indexer's final sort. -/
def entryGE (a b : AliasEntry) : Prop := b.len ≤ a.len

instance : DecidableRel entryGE := fun a b => Nat.decLe b.len a.len

instance : IsTotal AliasEntry entryGE := ⟨fun a b => Nat.le_total b.len a.len⟩

instance : IsTrans AliasEntry entryGE := ⟨fun _ _ _ h1 h2 => Nat.le_trans h2 h1⟩

/-- Build one `AliasEntry` from a catalog alias (loop body of
`load_law_aliases_with_morphology`). -/
def mkEntry (ℓ : List Char → List Char) (F : List Char → List (List Char))
    (law : Nat) (a : List Char) : AliasEntry :=
  let al := pyLower a
  { original := al
    normalized := normalizeText ℓ al
    law_id := law
    len := al.length
    word_count := (splitWs al).length
    exactPat := mkExactPattern al
    flexPat := mkFlexPattern F al }

/-- The lemma-normalized index: append `(lowercased alias, law id)` under the
normalized key, creating the binding on first use. -/
def indexAdd (ni : List (List Char × List (List Char × Nat)))
    (k : List Char) (v : List Char × Nat) : List (List Char × List (List Char × Nat)) :=
  match ni with
  | [] => [(k, [v])]
  | (k2, vs) :: rest => if k = k2 then (k2, vs ++ [v]) :: rest else (k2, vs) :: indexAdd rest k v

/-- `load_law_aliases_with_morphology` on an in-memory catalog: build the
lemma index and the per-alias descriptors, then sort the descriptors by alias
character length, descending (stable, as Python's sort). -/
def buildAliases (ℓ : List Char → List Char) (F : List Char → List (List Char))
    (catalog : List (Nat × List (List Char))) :
    List (List Char × List (List Char × Nat)) × List AliasEntry :=
  let step := fun (acc : List (List Char × List (List Char × Nat)) × List AliasEntry)
      (e : Nat × List (List Char)) =>
    e.2.foldl (fun acc2 a =>
      let al := pyLower a
      (indexAdd acc2.1 (normalizeText ℓ al) (al, e.1), acc2.2 ++ [mkEntry ℓ F e.1 a])) acc
  let built := catalog.foldl step ([], [])
  (built.1, List.insertionSort entryGE built.2)

/-- Scan state: best keyword-overlap fallback candidate
(`best_match_score` as an exact fraction numerator/denominator, plus
`best_match_without_number`). -/
def ScanSt := Nat × Nat × Option Nat

/-- Per-alias step of the direct scan loop of `find_law_in_text`
(lines 200–254): number disqualification, the numbered 60%-keyword early
return, the document-type gate, the ≥0.7 best-candidate update, then the
exact and inflection-tolerant pattern tests. -/
def scanStep (tl : List Char) (nums : List (List Char)) (dt : Option (List Char))
    (st : ScanSt) (e : AliasEntry) : Nat ⊕ ScanSt :=
  let a := e.original
  let anums := extractNumbers a
  let tnums := nums.map rstripPunct
  let anumsT := anums.map rstripPunct
  let skipNum : Bool :=
    !nums.isEmpty && !anums.isEmpty && !(anumsT.any (fun x => tnums.contains x))
  if skipNum then Sum.inr st
  else
    let ws := aliasContentWords a
    let mc := countIn ws tl
    let earlyRet : Bool :=
      !nums.isEmpty && !anums.isEmpty &&
      (match dt with
       | some k => isSubstr k a
       | none => false) &&
      !ws.isEmpty && 6 * ws.length ≤ 10 * mc
    if earlyRet then Sum.inl e.law_id
    else
      match dt with
      | some k =>
        if !isSubstr k a then Sum.inr st
        else
          let st2 : ScanSt :=
            if nums.isEmpty && !ws.isEmpty && st.1 * ws.length < mc * st.2.1 &&
               7 * ws.length ≤ 10 * mc
            then (mc, ws.length, some e.law_id) else st
          if patSearch e.exactPat tl then Sum.inl e.law_id
          else if patSearch e.flexPat tl then Sum.inl e.law_id
          else Sum.inr st2
      | none =>
        if patSearch e.exactPat tl then Sum.inl e.law_id
        else if patSearch e.flexPat tl then Sum.inl e.law_id
        else Sum.inr st

/-- The direct scan loop over the alias descriptors; at the end the recorded
best keyword-overlap candidate (if any) is returned, else the caller falls
through to the sliding-window fallback. -/
def scanLoop (tl : List Char) (nums : List (List Char)) (dt : Option (List Char)) :
    List AliasEntry → ScanSt → Option Nat
  | [], st => st.2.2
  | e :: rest, st =>
    match scanStep tl nums dt st e with
    | Sum.inl law => some law
    | Sum.inr st2 => scanLoop tl nums dt rest st2

/-- `\bPHRASE\b` search of the uppercased phrase in the uppercased text
(line 285's abbreviation confirmation). -/
def upperWholeWord (phrase text : List Char) : Bool :=
  patSearch { leadB := true, elems := [PatElem.lit (pyUpper phrase)], trailB := true }
    (pyUpper text)

/-- Per-registered-alias acceptance decision on a lemma-index hit
(lines 281–288): aliases of ≤3 characters require the uppercase whole-word
confirmation; longer aliases are accepted immediately. -/
def acceptHit (text phrase : List Char) (m : List Char × Nat) : Option Nat :=
  if m.1.length ≤ 3 then
    if upperWholeWord phrase text then some m.2 else none
  else some m.2

/-- Probe one window: join the words, lemma-normalize, look the phrase up in
the index, and run the acceptance decision over the registered aliases. -/
def windowAt (text : List Char) (ℓ : List Char → List Char)
    (ni : List (List Char × List (List Char × Nat)))
    (words : List (List Char)) (wsize i : Nat) : Option Nat :=
  let phrase := joinSp ((words.drop i).take wsize)
  match ni.lookup (normalizeText ℓ phrase) with
  | some ms => ms.findSome? (acceptHit text phrase)
  | none => none

/-- Sliding-window search over one word sequence: window sizes from
`min 10 wordCount` down to 1, positions left to right. -/
def seqSearch (text : List Char) (ℓ : List Char → List Char)
    (ni : List (List Char × List (List Char × Nat)))
    (words : List (List Char)) : Option Nat :=
  let mw := min 10 words.length
  (List.range mw).findSome? (fun d =>
    let wsize := mw - d
    (List.range (words.length - wsize + 1)).findSome? (fun i =>
      windowAt text ℓ ni words wsize i))

/-- `re.finditer(r'[а-яёА-ЯЁ\w\s]+', text_lower)`: the maximal runs of
word/whitespace characters. -/
def wordSeqs (tl : List Char) : List (List Char) :=
  (splitRuns (fun c => isWordChar c || isSpaceChar c) tl).filter (fun r =>
    match r with
    | c :: _ => isWordChar c || isSpaceChar c
    | [] => false)

/-- `find_law_in_text` (lines 162–290): number extraction, doc-type
detection, the direct alias scan (with its internal best-candidate), then the
lemma-normalized sliding-window fallback. -/
def find_law_in_text (ℓ : List Char → List Char)
    (ni : List (List Char × List (List Char × Nat)))
    (es : List AliasEntry) (text : List Char) : Option Nat :=
  let tl := pyLower text
  let nums := extractNumbers text
  let dt := docTypeSearch tl
  match scanLoop tl nums dt es (0, 1, none) with
  | some law => some law
  | none => (wordSeqs tl).findSome? (fun seq => seqSearch text ℓ ni (splitWs seq))

/-! ### Citation extractors -/

/-- A located occurrence of a document alias in the input text
(`law_mentions` element: law id, span, matched text). -/
structure Mention where
  law_id : Nat
  start : Nat
  stop : Nat
  matched : List Char
deriving DecidableEq

/-- A located citation fragment (`legal_references` element before law
assignment: position plus the captured article/point/subpoint). -/
structure Fragment where
  position : Nat
  article : Option (List Char)
  point : Option (List Char)
  subpoint : Option (List Char)
deriving DecidableEq

/-- The raw data the extraction regexes produce from the input text; the
regex engines themselves are outside the embedded logic (see the header).
`articleEnums`/`pointEnums`/`subEnums` are the captured enumeration
substrings (group 1, taken from the stripped original-case text);
`rawMentions` is the step-1 mention list before dedup/sort; `fragments` is
the step-3 fragment list. -/
structure RegexOracles where
  articleEnums : List Char → List (List Char)
  pointEnums : List Char → List (List Char)
  subEnums : List Char → List (List Char)
  rawMentions : List Char → List Mention
  fragments : List Char → List Fragment

/-- `parse_legal_reference_v2` (lines 293–431): locate the law, collect and
parse the enumerations (filtering out the marker abbreviations п/подп/пп),
build the output records. -/
def parse_legal_reference_v2 (o : RegexOracles) (ℓ : List Char → List Char)
    (ni : List (List Char × List (List Char × Nat)))
    (es : List AliasEntry) (text : List Char) : List CitationRecord :=
  let tl := stripWs (pyLower text)
  let law := find_law_in_text ℓ ni es tl
  let arts := (o.articleEnums text).flatMap (parseEnumeration isArticleItem)
  let pts := ((o.pointEnums text).flatMap (parseEnumeration isPointItem)).filter
    (fun p => pyLower p ≠ ("п".data))
  let sps := ((o.subEnums text).flatMap (parseEnumeration isSubpointItem)).filter
    (fun s => !([("п".data), ("подп".data), ("пп".data)].contains (pyLower s)))
  buildResultsV2 law arts pts sps

/-- Signed distance from a fragment position to a mention (step 3 of
`parse_legal_reference_multi_law`): `start − pos` if the fragment precedes
the mention's start, else `pos − end`. -/
def distI (pos : Nat) (m : Mention) : Int :=
  if pos < m.start then (m.start : Int) - (pos : Int) else (pos : Int) - (m.stop : Int)

/-- The asymmetric distance gates: at most 150 before the mention's start,
at most 50 after (as the code computes it, relative to `pos < start`). -/
def eligB (pos : Nat) (m : Mention) : Bool :=
  if pos < m.start then distI pos m ≤ 150 else distI pos m ≤ 50

/-- One mention considered against the running minimum. -/
def chooseStep (pos : Nat) (st : Option (Int × Nat)) (m : Mention) : Option (Int × Nat) :=
  if eligB pos m then
    match st with
    | none => some (distI pos m, m.law_id)
    | some (d0, l0) => if distI pos m < d0 then some (distI pos m, m.law_id) else some (d0, l0)
  else st

def chooseGo (pos : Nat) : List Mention → Option (Int × Nat) → Option (Int × Nat)
  | [], st => st
  | m :: ms, st => chooseGo pos ms (chooseStep pos st m)

/-- The nearest eligible mention's law id for a fragment position, if any. -/
def chooseClosest (ms : List Mention) (pos : Nat) : Option Nat :=
  (chooseGo pos ms none).map (fun x => x.2)

/-- Order-preserving first-occurrence dedup by a key. -/
def dedupBy {α β : Type} [DecidableEq β] (key : α → β) : List α → List β → List α
  | [], _ => []
  | x :: xs, seen =>
    if seen.contains (key x) then dedupBy key xs seen
    else x :: dedupBy key xs (key x :: seen)

/-- Step-1 mention dedup by `(law_id, start, end)`. -/
def dedupMentions (ms : List Mention) : List Mention :=
  dedupBy (fun m => (m.law_id, m.start, m.stop)) ms []

/-- Stable sort of the mentions by start offset. -/
def sortMentions (ms : List Mention) : List Mention :=
  List.insertionSort (fun a b : Mention => a.start ≤ b.start) ms

/-- Step-5 record dedup by the full field tuple. -/
def dedupRecords (rs : List CitationRecord) : List CitationRecord :=
  dedupBy (fun r => (r.law_id, r.article, r.point_article, r.subpoint_article)) rs []

/-- `parse_legal_reference_multi_law` (lines 434–599), the extraction entry
point: collect/dedup/sort the document mentions; with fewer than two,
delegate to the single-document path; else assign each fragment to its
nearest eligible mention, drop unassigned fragments, and dedup the records. -/
def parse_legal_reference_multi_law (o : RegexOracles) (ℓ : List Char → List Char)
    (ni : List (List Char × List (List Char × Nat)))
    (es : List AliasEntry) (text : List Char) : List CitationRecord :=
  let mentions := sortMentions (dedupMentions (o.rawMentions text))
  if mentions.length < 2 then parse_legal_reference_v2 o ℓ ni es text
  else
    let rs := (o.fragments text).filterMap (fun f =>
      (chooseClosest mentions f.position).map (fun law =>
        CitationRecord.mk (some law) f.article f.point f.subpoint))
    let u := dedupRecords rs
    if u.isEmpty then rs else u

/-! ### Concrete fixtures used by witnesses and counterexamples

`idMorph`/`F0` instantiate the morphology oracles with the behaviour
pymorphy3 exhibits on the concrete tokens involved: every token below is
already its own dictionary form (указ, нк, рф, numerals), so `normal_form`
is the identity and no extra paradigm forms are consulted on the paths the
concrete runs take. -/

def idMorph : List Char → List Char := fun w => w

def F0 : List Char → List (List Char) := fun w => [w]

/-- Oracle fixture: the regexes find nothing (an empty/malformed input). -/
def oEmpty : RegexOracles :=
  { articleEnums := fun _ => []
    pointEnums := fun _ => []
    subEnums := fun _ => []
    rawMentions := fun _ => []
    fragments := fun _ => [] }

/-- Oracle fixture: two document mentions and one citation fragment that is
too far from both (beyond every distance window). -/
def oFar : RegexOracles :=
  { articleEnums := fun _ => []
    pointEnums := fun _ => []
    subEnums := fun _ => []
    rawMentions := fun _ => [⟨1, 0, 3, []⟩, ⟨2, 10, 13, []⟩]
    fragments := fun _ => [⟨400, some ("5".data), none, none⟩] }

/-! ## Theorems -/

/-- C1: On the single-document extraction path, the result construction over
the found value lists follows the subpoint > point > article expansion
precedence: with ≥2 subpoints, one record per subpoint carrying the first
article and first point; otherwise with ≥2 points, one record per point
carrying the first article and first subpoint; otherwise with ≥2 articles,
one record per article carrying the first point and first subpoint.  In
particular the enumeration "5, 6 и 7" of articles with the document resolved
to id 10 yields exactly the three records (10, "5"/"6"/"7") with null point
and subpoint. -/
theorem c1_output_precedence :
    (∀ (law : Option Nat) (arts pts sps : List (List Char)), 2 ≤ sps.length →
      buildResultsV2 law arts pts sps =
        sps.map (fun s => ⟨law, arts.head?, pts.head?, some s⟩)) ∧
    (∀ (law : Option Nat) (arts pts sps : List (List Char)),
      sps.length < 2 → 2 ≤ pts.length →
      buildResultsV2 law arts pts sps =
        pts.map (fun p => ⟨law, arts.head?, some p, sps.head?⟩)) ∧
    (∀ (law : Option Nat) (arts pts sps : List (List Char)),
      sps.length < 2 → pts.length < 2 → 2 ≤ arts.length →
      buildResultsV2 law arts pts sps =
        arts.map (fun a => ⟨law, some a, pts.head?, sps.head?⟩)) ∧
    (parseEnumeration isArticleItem ("5, 6 и 7".data) =
        [("5".data), ("6".data), ("7".data)] ∧
      buildResultsV2 (some 10) (parseEnumeration isArticleItem ("5, 6 и 7".data)) [] [] =
        [⟨some 10, some ("5".data), none, none⟩,
         ⟨some 10, some ("6".data), none, none⟩,
         ⟨some 10, some ("7".data), none, none⟩]) := by
  refine ⟨?_, ?_, ?_, by decide, by decide⟩
  · intro law arts pts sps h
    unfold buildResultsV2
    rw [if_pos (by omega)]
  · intro law arts pts sps h1 h2
    unfold buildResultsV2
    rw [if_neg (by omega), if_pos (by omega)]
  · intro law arts pts sps h1 h2 h3
    unfold buildResultsV2
    rw [if_neg (by omega), if_neg (by omega), if_pos (by omega)]

/-- Witness for C1 at a concrete input. -/
theorem c1_output_precedence_w :
    buildResultsV2 (some 3) [("1".data)] [("4".data)] [("а".data), ("б".data)] =
      [⟨some 3, some ("1".data), some ("4".data), some ("а".data)⟩,
       ⟨some 3, some ("1".data), some ("4".data), some ("б".data)⟩] :=
  c1_output_precedence.1 (some 3) [("1".data)] [("4".data)]
    [("а".data), ("б".data)] (by decide)

theorem chooseStep_cases (pos : Nat) (st : Option (Int × Nat)) (m : Mention) :
    chooseStep pos st m = st ∨
      (eligB pos m = true ∧ chooseStep pos st m = some (distI pos m, m.law_id)) := by
  unfold chooseStep
  by_cases h : eligB pos m = true
  · rcases st with _ | ⟨d0, l0⟩
    · exact Or.inr ⟨h, by rw [if_pos h]⟩
    · by_cases h2 : distI pos m < d0
      · exact Or.inr ⟨h, by rw [if_pos h]; simp [h2]⟩
      · exact Or.inl (by rw [if_pos h]; simp [h2])
  · rw [if_neg h]
    exact Or.inl rfl

theorem chooseStep_le (pos : Nat) (st : Option (Int × Nat)) (m : Mention) (w : Int × Nat)
    (h : st = some w) :
    ∃ w2, chooseStep pos st m = some w2 ∧ w2.1 ≤ w.1 := by
  subst h
  unfold chooseStep
  by_cases h : eligB pos m = true
  · by_cases h2 : distI pos m < w.1
    · exact ⟨(distI pos m, m.law_id), by rw [if_pos h]; simp [h2], le_of_lt h2⟩
    · exact ⟨w, by rw [if_pos h]; simp [h2], le_refl _⟩
  · rw [if_neg h]
    exact ⟨w, rfl, le_refl _⟩

theorem chooseStep_elig (pos : Nat) (st : Option (Int × Nat)) (m : Mention)
    (h : eligB pos m = true) :
    ∃ w2, chooseStep pos st m = some w2 ∧ w2.1 ≤ distI pos m := by
  unfold chooseStep
  rcases st with _ | ⟨d0, l0⟩
  · exact ⟨(distI pos m, m.law_id), by rw [if_pos h], le_refl _⟩
  · by_cases h2 : distI pos m < d0
    · exact ⟨(distI pos m, m.law_id), by rw [if_pos h]; simp [h2], le_refl _⟩
    · exact ⟨(d0, l0), by rw [if_pos h]; simp [h2], by simp; omega⟩

theorem chooseGo_spec (pos : Nat) : ∀ (ms : List Mention) (st : Option (Int × Nat)),
    (chooseGo pos ms st = st ∨ ∃ m ∈ ms, eligB pos m = true ∧
        chooseGo pos ms st = some (distI pos m, m.law_id)) ∧
    (∀ m ∈ ms, eligB pos m = true →
        ∃ v, chooseGo pos ms st = some v ∧ v.1 ≤ distI pos m) ∧
    (∀ w, st = some w → ∃ v, chooseGo pos ms st = some v ∧ v.1 ≤ w.1)
  | [], st => by
    refine ⟨Or.inl rfl, ?_, ?_⟩
    · intro m hm
      exact absurd hm (List.not_mem_nil m)
    · intro w hw
      exact ⟨w, hw, le_refl _⟩
  | m :: ms, st => by
    have ih := chooseGo_spec pos ms (chooseStep pos st m)
    have hstep : chooseGo pos (m :: ms) st = chooseGo pos ms (chooseStep pos st m) := rfl
    refine ⟨?_, ?_, ?_⟩
    · rcases ih.1 with h1 | ⟨m2, hm2, he2, hv2⟩
      · rcases chooseStep_cases pos st m with h2 | ⟨he, h2⟩
        · exact Or.inl (by rw [hstep, h1, h2])
        · exact Or.inr ⟨m, List.mem_cons_self m ms, he, by rw [hstep, h1, h2]⟩
      · exact Or.inr ⟨m2, List.mem_cons_of_mem m hm2, he2, by rw [hstep, hv2]⟩
    · intro m2 hm2 he2
      rcases List.mem_cons.mp hm2 with rfl | hm2
      · obtain ⟨w2, hw2, hle⟩ := chooseStep_elig pos st m2 he2
        obtain ⟨v, hv, hvle⟩ := ih.2.2 w2 hw2
        exact ⟨v, by rw [hstep, hv], le_trans hvle hle⟩
      · obtain ⟨v, hv, hvle⟩ := ih.2.1 m2 hm2 he2
        exact ⟨v, by rw [hstep, hv], hvle⟩
    · intro w hw
      obtain ⟨w2, hw2, hle⟩ := chooseStep_le pos st m w hw
      obtain ⟨v, hv, hvle⟩ := ih.2.2 w2 hw2
      exact ⟨v, by rw [hstep, hv], le_trans hvle hle⟩

theorem chooseGo_of_none (pos : Nat) : ∀ (ms : List Mention) (st : Option (Int × Nat)),
    (∀ m ∈ ms, eligB pos m = false) → chooseGo pos ms st = st
  | [], _, _ => rfl
  | m :: ms, st, h => by
    have hm : eligB pos m = false := h m (List.mem_cons_self m ms)
    have hstep : chooseStep pos st m = st := by
      unfold chooseStep
      rw [if_neg (by simp [hm])]
    show chooseGo pos ms (chooseStep pos st m) = st
    rw [hstep]
    exact chooseGo_of_none pos ms st (fun m2 hm2 => h m2 (List.mem_cons_of_mem m hm2))

/-- C2 (amended): on the multi-document path a mention is an eligible
assignment target for a fragment iff either the fragment's position precedes
the mention's start and `start − position ≤ 150`, or the fragment's position
is at or after the mention's *start* (not its end; positions falling inside
the mention span also qualify, with a negative signed distance) and the
signed distance `position − end` is at most 50; each fragment gets the law id
of a minimum-distance eligible mention; a fragment with no eligible mention
is dropped; a fragment exactly 150 characters before its only candidate
mention is assigned and one 151 characters before it is dropped. -/
theorem c2_distance_assignment :
    (∀ (pos : Nat) (m : Mention), eligB pos m = true ↔
        ((pos < m.start ∧ (m.start : Int) - (pos : Int) ≤ 150) ∨
         (m.start ≤ pos ∧ (pos : Int) - (m.stop : Int) ≤ 50))) ∧
    (∀ (ms : List Mention) (pos : Nat), (∀ m ∈ ms, eligB pos m = false) →
        chooseClosest ms pos = none) ∧
    (∀ (ms : List Mention) (pos : Nat) (m : Mention), m ∈ ms → eligB pos m = true →
        ∃ d law, chooseGo pos ms none = some (d, law) ∧
          (∃ m2 ∈ ms, eligB pos m2 = true ∧ law = m2.law_id ∧ d = distI pos m2) ∧
          (∀ m2 ∈ ms, eligB pos m2 = true → d ≤ distI pos m2)) ∧
    (∀ (m : Mention) (pos : Nat), pos + 150 = m.start →
        chooseClosest [m] pos = some m.law_id) ∧
    (∀ (m : Mention) (pos : Nat), pos + 151 = m.start →
        chooseClosest [m] pos = none) := by
  refine ⟨?_, ?_, ?_, ?_, ?_⟩
  · intro pos m
    unfold eligB distI
    by_cases h : pos < m.start
    · simp only [if_pos h, decide_eq_true_eq]
      omega
    · simp only [if_neg h, decide_eq_true_eq]
      omega
  · intro ms pos h
    unfold chooseClosest
    rw [chooseGo_of_none pos ms none h]
    rfl
  · intro ms pos m hm he
    obtain ⟨v, hv, _⟩ := (chooseGo_spec pos ms none).2.1 m hm he
    rcases (chooseGo_spec pos ms none).1 with h1 | ⟨m2, hm2, he2, hv2⟩
    · rw [hv] at h1
      exact absurd h1 (by simp)
    · refine ⟨distI pos m2, m2.law_id, hv2, ⟨m2, hm2, he2, rfl, rfl⟩, ?_⟩
      intro m3 hm3 he3
      obtain ⟨v3, hv3, hle3⟩ := (chooseGo_spec pos ms none).2.1 m3 hm3 he3
      rw [hv2] at hv3
      have : v3 = (distI pos m2, m2.law_id) := by
        injection hv3.symm
      rw [this] at hle3
      exact hle3
  · intro m pos h
    have he : eligB pos m = true := by
      unfold eligB distI
      rw [if_pos (by omega), if_pos (by omega)]
      simp only [decide_eq_true_eq]
      omega
    show (chooseGo pos [m] none).map (fun x => x.2) = some m.law_id
    have : chooseGo pos [m] none = some (distI pos m, m.law_id) := by
      show chooseStep pos none m = some (distI pos m, m.law_id)
      unfold chooseStep
      rw [if_pos he]
    rw [this]
    rfl
  · intro m pos h
    have he : eligB pos m = false := by
      unfold eligB distI
      rw [if_pos (by omega), if_pos (by omega)]
      simp only [decide_eq_false_iff_not]
      omega
    show (chooseGo pos [m] none).map (fun x => x.2) = none
    rw [chooseGo_of_none pos [m] none (by intro m2 hm2; rw [List.mem_singleton.mp hm2]; exact he)]
    rfl

/-- Witness for C2 at a concrete input: the 150-characters-before boundary. -/
theorem c2_distance_assignment_w :
    chooseClosest [⟨9, 200, 205, []⟩] 50 = some 9 :=
  c2_distance_assignment.2.2.2.1 ⟨9, 200, 205, []⟩ 50 (by decide)

/-- Counterexample for C2 as stated: a fragment whose position lies inside
the mention's span (position 2, span [0, 5)) satisfies neither of the claim's
two disjuncts, yet the code assigns the mention (negative signed distance). -/
theorem c2_overlap_counterexample :
    chooseClosest [⟨9, 0, 5, []⟩] 2 = some 9 ∧
    ¬ ((2 < 0 ∧ (0 : Int) - 2 ≤ 150) ∨ (5 ≤ 2 ∧ (2 : Int) - 5 ≤ 50)) := by
  decide

theorem scanStep_skip (tl : List Char) (nums : List (List Char)) (dt : Option (List Char))
    (st : ScanSt) (e : AliasEntry)
    (h1 : nums.isEmpty = false)
    (h2 : (extractNumbers e.original).isEmpty = false)
    (h3 : ((extractNumbers e.original).map rstripPunct).any
        (fun x => ((nums.map rstripPunct)).contains x) = false) :
    scanStep tl nums dt st e = Sum.inr st := by
  unfold scanStep
  simp only [h1, h2, h3, Bool.not_false, Bool.and_self, if_pos]

theorem scanLoop_erase (tl : List Char) (nums : List (List Char)) (dt : Option (List Char))
    (e : AliasEntry)
    (h1 : nums.isEmpty = false)
    (h2 : (extractNumbers e.original).isEmpty = false)
    (h3 : ((extractNumbers e.original).map rstripPunct).any
        (fun x => ((nums.map rstripPunct)).contains x) = false) :
    ∀ (l1 l2 : List AliasEntry) (st : ScanSt),
      scanLoop tl nums dt (l1 ++ e :: l2) st = scanLoop tl nums dt (l1 ++ l2) st
  | [], l2, st => by
    show scanLoop tl nums dt (e :: l2) st = scanLoop tl nums dt l2 st
    have hL : scanLoop tl nums dt (e :: l2) st =
        (match scanStep tl nums dt st e with
         | Sum.inl law => some law
         | Sum.inr st2 => scanLoop tl nums dt l2 st2) := rfl
    rw [hL, scanStep_skip tl nums dt st e h1 h2 h3]
  | x :: l1, l2, st => by
    show scanLoop tl nums dt (x :: (l1 ++ e :: l2)) st = scanLoop tl nums dt (x :: (l1 ++ l2)) st
    have hL : ∀ rest, scanLoop tl nums dt (x :: rest) st =
        (match scanStep tl nums dt st x with
         | Sum.inl law => some law
         | Sum.inr st2 => scanLoop tl nums dt rest st2) := fun _ => rfl
    rw [hL, hL]
    cases scanStep tl nums dt st x with
    | inl law => rfl
    | inr st2 => exact scanLoop_erase tl nums dt e h1 h2 h3 l1 l2 st2

/-- C3 (amended): an alias that carries a document number is skipped entirely
by the direct alias scan whenever the text's extracted trimmed numbers do not
intersect the alias's trimmed numbers — deleting the alias from the scan list
leaves the locator's result unchanged, so the scan never returns that alias's
document id on account of that alias.  (The lemma-normalized sliding-window
fallback is not governed by the number check and can still resolve to that
alias, as the counterexample shows.) -/
theorem c3_number_disqualification :
    ∀ (ℓ : List Char → List Char) (ni : List (List Char × List (List Char × Nat)))
      (l1 l2 : List AliasEntry) (e : AliasEntry) (text : List Char),
      (extractNumbers text).isEmpty = false →
      (extractNumbers e.original).isEmpty = false →
      ((extractNumbers e.original).map rstripPunct).any
        (fun x => (((extractNumbers text).map rstripPunct)).contains x) = false →
      find_law_in_text ℓ ni (l1 ++ e :: l2) text = find_law_in_text ℓ ni (l1 ++ l2) text := by
  intro ℓ ni l1 l2 e text h1 h2 h3
  have hrw : ∀ es, find_law_in_text ℓ ni es text =
      (match scanLoop (pyLower text) (extractNumbers text) (docTypeSearch (pyLower text))
          es (0, 1, none) with
       | some law => some law
       | none => (wordSeqs (pyLower text)).findSome?
           (fun seq => seqSearch text ℓ ni (splitWs seq))) := fun _ => rfl
  rw [hrw, hrw, scanLoop_erase (pyLower text) (extractNumbers text)
    (docTypeSearch (pyLower text)) e h1 h2 h3 l1 l2 (0, 1, none)]

/-- Witness for C3 at a concrete input: the alias «указ №474» is transparent
to the scan on a text whose only explicit number is 201. -/
theorem c3_number_disqualification_w :
    find_law_in_text idMorph [] [mkEntry idMorph F0 3 ("указ №474".data)]
        ("указ 474 № 201".data) =
      find_law_in_text idMorph [] [] ("указ 474 № 201".data) :=
  c3_number_disqualification idMorph [] [] [] (mkEntry idMorph F0 3 ("указ №474".data))
    ("указ 474 № 201".data) (by decide) (by decide) (by decide)

/-- Counterexample for C3 as stated: with the alias «указ №474» (number 474)
and the text «указ 474 № 201» (explicit number 201, trimmed numbers
disjoint from the alias's), the locator still returns the alias's document id
— the sliding-window fallback normalizes «№474» to «474» and matches the
window «указ 474». -/
theorem c3_fallback_counterexample :
    find_law_in_text idMorph (buildAliases idMorph F0 [(3, [("указ №474".data)])]).1
        (buildAliases idMorph F0 [(3, [("указ №474".data)])]).2
        ("указ 474 № 201".data) = some 3 ∧
    ((extractNumbers ("указ №474".data)).map rstripPunct).any
      (fun x => (((extractNumbers ("указ 474 № 201".data)).map rstripPunct)).contains x)
        = false ∧
    (extractNumbers ("указ 474 № 201".data)).isEmpty = false := by
  decide

theorem leadsL_length_le : ∀ (s t : List Char), leadsL s t = true → s.length ≤ t.length
  | [], _, _ => Nat.zero_le _
  | _ :: _, [], h => by simp [leadsL] at h
  | c :: cs, d :: ds, h => by
    simp only [leadsL, Bool.and_eq_true] at h
    simpa using Nat.succ_le_succ (leadsL_length_le cs ds h.2)

theorem leadsL_eq_of_len : ∀ (s t : List Char), leadsL s t = true → t.length ≤ s.length → s = t
  | [], [], _, _ => rfl
  | [], _ :: _, _, h2 => by simp at h2
  | _ :: _, [], h, _ => by simp [leadsL] at h
  | c :: cs, d :: ds, h, h2 => by
    simp only [leadsL, Bool.and_eq_true, decide_eq_true_eq] at h
    rw [h.1, leadsL_eq_of_len cs ds h.2 (by simpa using h2)]

theorem isSubstr_strict_length (s t : List Char) (hs : isSubstr s t = true) (hne : s ≠ t) :
    s.length < t.length := by
  unfold isSubstr at hs
  rw [List.any_eq_true] at hs
  obtain ⟨i, hmem, hL⟩ := hs
  have hi : i < t.length + 1 := List.mem_range.mp hmem
  have h1 : s.length ≤ (t.drop i).length := leadsL_length_le _ _ hL
  rw [List.length_drop] at h1
  rcases Nat.lt_or_ge s.length t.length with h | h
  · exact h
  · exfalso
    have heq : s = t.drop i := leadsL_eq_of_len _ _ hL (by rw [List.length_drop]; omega)
    have hi0 : i = 0 := by omega
    rw [hi0, List.drop_zero] at heq
    exact hne heq

theorem scanStep_hit (tl : List Char) (nums : List (List Char)) (dt : Option (List Char))
    (st : ScanSt) (e : AliasEntry)
    (hnum : (nums.isEmpty || (extractNumbers e.original).isEmpty ||
        ((extractNumbers e.original).map rstripPunct).any
          (fun x => ((nums.map rstripPunct)).contains x)) = true)
    (hdt : (match dt with
            | some k => isSubstr k e.original
            | none => true) = true)
    (hpat : (patSearch e.exactPat tl || patSearch e.flexPat tl) = true) :
    scanStep tl nums dt st e = Sum.inl e.law_id := by
  have hskip : (!nums.isEmpty && !(extractNumbers e.original).isEmpty &&
      !(((extractNumbers e.original).map rstripPunct).any
        (fun x => ((nums.map rstripPunct)).contains x))) = false := by
    rw [← Bool.not_or, ← Bool.not_or, hnum]
    rfl
  simp only [scanStep]
  rw [if_neg (by rw [hskip]; exact Bool.false_ne_true)]
  cases dt with
  | none =>
    cases hE : patSearch e.exactPat tl with
    | true => simp [hE]
    | false =>
      rw [hE] at hpat
      simp only [Bool.false_or] at hpat
      simp [hE, hpat]
  | some k =>
    have hk : isSubstr k e.original = true := hdt
    cases hE : patSearch e.exactPat tl with
    | true => simp [hk, hE]
    | false =>
      rw [hE] at hpat
      simp only [Bool.false_or] at hpat
      simp [hk, hE, hpat]

/-- C4 (amended): the indexer's alias list is sorted by alias character
length in descending order and the locator scans it in that order;
consequently, for two catalog aliases where one is a strict substring of the
other, a text the longer alias's exact pattern matches resolves to the
longer alias's document id — provided the longer alias survives the number
gate (its trimmed numbers, if any, intersect the text's, which can fail when
the text extends the number with a suffix such as «474-п») and the text's
detected document-type keyword (if any) occurs in the longer alias. -/
theorem c4_longest_alias_precedence :
    (∀ (ℓ : List Char → List Char) (F : List Char → List (List Char))
       (catalog : List (Nat × List (List Char))),
      List.Sorted entryGE (buildAliases ℓ F catalog).2) ∧
    (∀ (ℓ : List Char → List Char) (F : List Char → List (List Char))
       (idB idA : Nat) (aB aA text : List Char),
      isSubstr (pyLower aA) (pyLower aB) = true →
      pyLower aA ≠ pyLower aB →
      patSearch (mkExactPattern (pyLower aB)) (pyLower text) = true →
      ((extractNumbers text).isEmpty || (extractNumbers (pyLower aB)).isEmpty ||
        ((extractNumbers (pyLower aB)).map rstripPunct).any
          (fun x => (((extractNumbers text).map rstripPunct)).contains x)) = true →
      (match docTypeSearch (pyLower text) with
       | some k => isSubstr k (pyLower aB)
       | none => true) = true →
      find_law_in_text ℓ (buildAliases ℓ F [(idB, [aB]), (idA, [aA])]).1
        (buildAliases ℓ F [(idB, [aB]), (idA, [aA])]).2 text = some idB) := by
  constructor
  · intro ℓ F catalog
    show List.Sorted entryGE
      (List.insertionSort entryGE
        ((catalog.foldl _ ([], [])).2))
    exact List.sorted_insertionSort entryGE _
  · intro ℓ F idB idA aB aA text hsub hne hexact hnum hdt
    have hlen : (pyLower aA).length < (pyLower aB).length :=
      isSubstr_strict_length _ _ hsub hne
    have hGE : entryGE (mkEntry ℓ F idB aB) (mkEntry ℓ F idA aA) := by
      show (mkEntry ℓ F idA aA).len ≤ (mkEntry ℓ F idB aB).len
      show (pyLower aA).length ≤ (pyLower aB).length
      omega
    have hsort : (buildAliases ℓ F [(idB, [aB]), (idA, [aA])]).2 =
        [mkEntry ℓ F idB aB, mkEntry ℓ F idA aA] := by
      show List.orderedInsert entryGE (mkEntry ℓ F idB aB)
          (List.orderedInsert entryGE (mkEntry ℓ F idA aA) []) = _
      show List.orderedInsert entryGE (mkEntry ℓ F idB aB) [mkEntry ℓ F idA aA] = _
      show (if entryGE (mkEntry ℓ F idB aB) (mkEntry ℓ F idA aA) then _ else _) = _
      rw [if_pos hGE]
    have hstep : scanStep (pyLower text) (extractNumbers text)
        (docTypeSearch (pyLower text)) (0, 1, none) (mkEntry ℓ F idB aB) =
        Sum.inl (mkEntry ℓ F idB aB).law_id :=
      scanStep_hit _ _ _ _ _ hnum hdt (by rw [show (mkEntry ℓ F idB aB).exactPat =
        mkExactPattern (pyLower aB) from rfl, hexact]; rfl)
    have hrw : find_law_in_text ℓ (buildAliases ℓ F [(idB, [aB]), (idA, [aA])]).1
        (buildAliases ℓ F [(idB, [aB]), (idA, [aA])]).2 text =
        (match scanLoop (pyLower text) (extractNumbers text)
            (docTypeSearch (pyLower text))
            (buildAliases ℓ F [(idB, [aB]), (idA, [aA])]).2 (0, 1, none) with
         | some law => some law
         | none => (wordSeqs (pyLower text)).findSome?
             (fun seq => seqSearch text ℓ (buildAliases ℓ F [(idB, [aB]), (idA, [aA])]).1
               (splitWs seq))) := rfl
    rw [hrw, hsort]
    have hL : scanLoop (pyLower text) (extractNumbers text) (docTypeSearch (pyLower text))
        [mkEntry ℓ F idB aB, mkEntry ℓ F idA aA] (0, 1, none) =
        (match scanStep (pyLower text) (extractNumbers text) (docTypeSearch (pyLower text))
            (0, 1, none) (mkEntry ℓ F idB aB) with
         | Sum.inl law => some law
         | Sum.inr st2 => scanLoop (pyLower text) (extractNumbers text)
             (docTypeSearch (pyLower text)) [mkEntry ℓ F idA aA] st2) := rfl
    rw [hL, hstep]
    rfl

/-- Witness for C4 at a concrete input: «закон о связи» (longer) vs «закон»
(shorter substring); a text containing the longer alias resolves to its id. -/
theorem c4_longest_alias_precedence_w :
    find_law_in_text idMorph
        (buildAliases idMorph F0 [(1, [("закон о связи".data)]), (2, [("закон".data)])]).1
        (buildAliases idMorph F0 [(1, [("закон о связи".data)]), (2, [("закон".data)])]).2
        ("в закон о связи внесены".data) = some 1 :=
  c4_longest_alias_precedence.2 idMorph F0 1 2 ("закон о связи".data) ("закон".data)
    ("в закон о связи внесены".data) (by decide) (by decide) (by decide) (by decide)
    (by decide)

/-- Counterexample for C4 as stated: the text «указ № 474-п» contains the
longer alias «указ № 474» (its exact pattern matches, word boundary before
the suffix), the shorter alias «указ» is a strict substring sharing the
document-type keyword — yet the trimmed text number «474-п» differs from the
alias's «474», the number gate skips the longer alias, and the locator
resolves to the shorter alias's id 2 instead of 1. -/
theorem c4_number_gate_counterexample :
    find_law_in_text idMorph
        (buildAliases idMorph F0 [(1, [("указ № 474".data)]), (2, [("указ".data)])]).1
        (buildAliases idMorph F0 [(1, [("указ № 474".data)]), (2, [("указ".data)])]).2
        ("указ № 474-п".data) = some 2 ∧
    patSearch (mkExactPattern ("указ № 474".data)) (pyLower ("указ № 474-п".data)) = true ∧
    isSubstr ("указ".data) ("указ № 474".data) = true ∧
    ("указ".data ≠ ("указ № 474".data : List Char)) := by
  refine ⟨by decide, by decide, by decide, by decide⟩

/-- C5 (amended): the exact-pattern and inflection-tolerant-pattern tests are
applied only to aliases that survive the number and document-type gates: an
alias the gates do not skip whose exact (or, failing that, flexible) pattern
matches the text causes the scan to return that alias's document id when it
is reached in scan order.  An alias is skipped entirely — its patterns never
tested — when the text's detected document-type keyword does not occur in
the alias (or when the number gate disqualifies it). -/
theorem c5_gated_pattern_tests :
    ∀ (tl : List Char) (nums : List (List Char)) (dt : Option (List Char))
      (st : ScanSt) (e : AliasEntry) (rest : List AliasEntry),
      (nums.isEmpty || (extractNumbers e.original).isEmpty ||
        ((extractNumbers e.original).map rstripPunct).any
          (fun x => ((nums.map rstripPunct)).contains x)) = true →
      (match dt with
       | some k => isSubstr k e.original
       | none => true) = true →
      (patSearch e.exactPat tl || patSearch e.flexPat tl) = true →
      scanLoop tl nums dt (e :: rest) st = some e.law_id := by
  intro tl nums dt st e rest hnum hdt hpat
  have hL : scanLoop tl nums dt (e :: rest) st =
      (match scanStep tl nums dt st e with
       | Sum.inl law => some law
       | Sum.inr st2 => scanLoop tl nums dt rest st2) := rfl
  rw [hL, scanStep_hit tl nums dt st e hnum hdt hpat]

/-- Witness for C5 at a concrete input. -/
theorem c5_gated_pattern_tests_w :
    scanLoop ("абвгд".data) [] none [mkEntry idMorph F0 4 ("абвгд".data)] (0, 1, none) =
      some 4 :=
  c5_gated_pattern_tests ("абвгд".data) [] none (0, 1, none)
    (mkEntry idMorph F0 4 ("абвгд".data)) [] (by decide) (by decide) (by decide)

/-- Counterexample for C5 as stated: the text «закону кодекс р.ф.» contains
the alias «кодекс р.ф.» verbatim (its exact pattern matches), but the text's
document-type keyword «закон» does not occur in the alias, so the scan skips
the alias before any pattern test and the locator returns nothing at all —
not the alias's document id. -/
theorem c5_doctype_skip_counterexample :
    find_law_in_text idMorph
        (buildAliases idMorph F0 [(5, [("кодекс р.ф.".data)])]).1
        (buildAliases idMorph F0 [(5, [("кодекс р.ф.".data)])]).2
        ("закону кодекс р.ф.".data) = none ∧
    patSearch (mkExactPattern ("кодекс р.ф.".data)) (pyLower ("закону кодекс р.ф.".data))
        = true ∧
    docTypeSearch (pyLower ("закону кодекс р.ф.".data)) = some ("закон".data) ∧
    isSubstr ("закон".data) ("кодекс р.ф.".data) = false := by
  refine ⟨by decide, by decide, by decide, by decide⟩

/-- C6 (amended): in the sliding-window fallback, a lemma-index hit whose
registered original alias is at most 3 characters long is accepted iff the
uppercase form of the matched window phrase appears as a whole word in the
*uppercased* input text (both sides are uppercased, so the check is a
case-insensitive whole-word test, not a test against the original-case
text); hits whose original alias is longer than 3 characters are accepted
immediately. -/
theorem c6_abbreviation_gate :
    (∀ (text phrase orig : List Char) (law : Nat),
      acceptHit text phrase (orig, law) = some law ↔
        (orig.length ≤ 3 → upperWholeWord phrase text = true)) ∧
    (∀ (text phrase orig : List Char) (law : Nat), 3 < orig.length →
      acceptHit text phrase (orig, law) = some law) := by
  constructor
  · intro text phrase orig law
    unfold acceptHit
    by_cases h : orig.length ≤ 3
    · rw [if_pos h]
      by_cases h2 : upperWholeWord phrase text = true
      · simp [h2, h]
      · simp [h2, h]
    · rw [if_neg h]
      simp [h]
  · intro text phrase orig law h
    unfold acceptHit
    rw [if_neg (by simp; omega)]

/-- Witness for C6 at a concrete input: a registered alias longer than 3
characters is accepted immediately. -/
theorem c6_abbreviation_gate_w :
    acceptHit ("аб вгде".data) ("вгде".data) (("вгде".data), 8) = some 8 :=
  c6_abbreviation_gate.2 ("аб вгде".data) ("вгде".data) ("вгде".data) 8 (by decide)

/-- Counterexample for C6 as stated: the all-lowercase text «закону нк делу»
never shows the literal uppercase token «НК», yet the fallback accepts the
3-character alias «нк» and the locator returns its id — the code compares
`phrase.upper()` against `text.upper()`, not against the original-case text. -/
theorem c6_case_counterexample :
    find_law_in_text idMorph
        (buildAliases idMorph F0 [(7, [("нк".data)])]).1
        (buildAliases idMorph F0 [(7, [("нк".data)])]).2
        ("закону нк делу".data) = some 7 ∧
    (("нк".data : List Char)).length ≤ 3 ∧
    patSearch { leadB := true, elems := [PatElem.lit ("НК".data)], trailB := true }
      ("закону нк делу".data) = false := by
  refine ⟨by decide, by decide, by decide⟩

/-- C7: for an input on which nothing is found — no document mention, no
article/point/subpoint enumeration, no locatable document (the formal
counterpart of a malformed or empty text) — extraction returns exactly one
record with all four fields null, and, being a total function, never fails. -/
theorem c7_empty_input_single_null :
    ∀ (o : RegexOracles) (ℓ : List Char → List Char)
      (ni : List (List Char × List (List Char × Nat))) (es : List AliasEntry)
      (text : List Char),
      o.rawMentions text = [] →
      o.articleEnums text = [] →
      o.pointEnums text = [] →
      o.subEnums text = [] →
      find_law_in_text ℓ ni es (stripWs (pyLower text)) = none →
      parse_legal_reference_multi_law o ℓ ni es text = [⟨none, none, none, none⟩] := by
  intro o ℓ ni es text hm ha hp hs hlaw
  have h1 : parse_legal_reference_multi_law o ℓ ni es text =
      parse_legal_reference_v2 o ℓ ni es text := by
    unfold parse_legal_reference_multi_law
    rw [hm]
    rfl
  have h2 : parse_legal_reference_v2 o ℓ ni es text =
      buildResultsV2 (find_law_in_text ℓ ni es (stripWs (pyLower text)))
        ((o.articleEnums text).flatMap (parseEnumeration isArticleItem))
        (((o.pointEnums text).flatMap (parseEnumeration isPointItem)).filter
          (fun p => pyLower p ≠ ("п".data)))
        (((o.subEnums text).flatMap (parseEnumeration isSubpointItem)).filter
          (fun s => !([("п".data), ("подп".data), ("пп".data)].contains (pyLower s)))) := rfl
  rw [h1, h2, ha, hp, hs, hlaw]
  rfl

/-- Witness for C7 at a concrete input: the empty text with an empty index. -/
theorem c7_empty_input_single_null_w :
    parse_legal_reference_multi_law oEmpty idMorph [] [] [] =
      [⟨none, none, none, none⟩] :=
  c7_empty_input_single_null oEmpty idMorph [] [] [] rfl rfl rfl rfl (by decide)

/-- C8: extraction is a pure function of the input text and the prebuilt
index (plus the fixed regex and morphology collaborators): two invocations on
the same text return equal result lists. -/
theorem c8_extract_deterministic :
    ∀ (o : RegexOracles) (ℓ : List Char → List Char)
      (ni : List (List Char × List (List Char × Nat))) (es : List AliasEntry)
      (text : List Char),
      parse_legal_reference_multi_law o ℓ ni es text =
        parse_legal_reference_multi_law o ℓ ni es text :=
  fun _ _ _ _ _ => rfl

theorem leadsL_append : ∀ (a b cs : List Char),
    leadsL (a ++ b) cs = (leadsL a cs && leadsL b (cs.drop a.length))
  | [], b, cs => by simp [leadsL]
  | _ :: _, _, [] => by simp [leadsL]
  | c :: a, b, d :: ds => by
    show (decide (c = d) && leadsL (a ++ b) ds) =
      ((decide (c = d) && leadsL a ds) && leadsL b (ds.drop a.length))
    rw [leadsL_append a b ds, Bool.and_assoc]

theorem elemsMatches_single_lit (s cs : List Char) :
    elemsMatches [PatElem.lit s] cs = (if leadsL s cs then [s.length] else []) := by
  unfold elemsMatches
  split
  · unfold elemsMatches
    simp
  · rfl

theorem elemsMatches_map_lit : ∀ (toks : List (List Char)) (cs : List Char),
    elemsMatches (toks.map PatElem.lit) cs =
      (if leadsL toks.flatten cs then [toks.flatten.length] else [])
  | [], cs => by simp [elemsMatches, leadsL]
  | t :: toks, cs => by
    simp only [List.map_cons, List.flatten_cons]
    show (if leadsL t cs then
        (elemsMatches (toks.map PatElem.lit) (cs.drop t.length)).map (fun L => L + t.length)
      else []) = _
    rw [elemsMatches_map_lit toks (cs.drop t.length), leadsL_append, List.length_append]
    by_cases h1 : leadsL t cs = true
    · by_cases h2 : leadsL toks.flatten (cs.drop t.length) = true
      · rw [if_pos h1, if_pos h2, if_pos (by rw [h1, h2]; rfl)]
        simp [Nat.add_comm]
      · have hb2 : leadsL toks.flatten (cs.drop t.length) = false := Bool.eq_false_iff.mpr h2
        rw [if_pos h1, if_neg h2, if_neg (by rw [h1, hb2]; simp)]
        rfl
    · rw [if_neg h1, if_neg (by rw [Bool.eq_false_iff.mpr h1]; simp)]

theorem splitRuns_ok (p : Char → Bool) : ∀ (cs : List Char),
    (splitRuns p cs).flatten = cs ∧ ∀ r ∈ splitRuns p cs, r ≠ []
  | [] => ⟨rfl, by simp [splitRuns]⟩
  | c :: cs => by
    have ih := splitRuns_ok p cs
    have hstep : splitRuns p (c :: cs) = runStep p c (splitRuns p cs) := rfl
    rcases hsp : splitRuns p cs with _ | ⟨r, rest⟩
    · rw [hsp] at ih
      have hcs : cs = [] := by simpa using ih.1.symm
      rw [hstep, hsp, hcs]
      exact ⟨rfl, by simp [runStep]⟩
    · rw [hsp] at ih
      rcases r with _ | ⟨d, t⟩
      · exact absurd rfl (ih.2 [] (List.mem_cons_self _ _))
      · rw [hstep, hsp]
        simp only [runStep]
        by_cases hpc : p c = p d
        · rw [if_pos hpc]
          constructor
          · rw [List.flatten_cons, List.cons_append, ← List.flatten_cons (l := d :: t), ih.1]
          · intro r hr
            rcases List.mem_cons.mp hr with rfl | hr2
            · simp
            · exact ih.2 r (List.mem_cons_of_mem _ hr2)
        · rw [if_neg hpc]
          constructor
          · rw [List.flatten_cons, ih.1]
            rfl
          · intro r hr
            rcases List.mem_cons.mp hr with rfl | hr2
            · simp
            · exact ih.2 r hr2

theorem flexElems_all_lit (F : List Char → List (List Char)) :
    ∀ (toks : List (List Char)),
      (∀ t ∈ toks, isWordTok t = true → genWordForms F t = [pyLower t]) →
      (∀ t ∈ toks, (stripWs t).isEmpty = false) →
      flexElems F toks = toks.map PatElem.lit
  | [], _, _ => rfl
  | t :: toks, h1, h2 => by
    unfold flexElems
    simp only [List.map_cons]
    congr 1
    · by_cases hw : isWordTok t = true
      · simp [hw, h1 t (List.mem_cons_self t toks) hw]
      · simp [hw, h2 t (List.mem_cons_self t toks)]
    · exact flexElems_all_lit F toks
        (fun u hu => h1 u (List.mem_cons_of_mem t hu))
        (fun u hu => h2 u (List.mem_cons_of_mem t hu))

/-- C9 (amended): for an alias each of whose word tokens has no inflected
surface form beyond itself, the exact pattern and the inflection-tolerant
pattern match exactly the same texts *provided the alias contains no
whitespace run* (e.g. a single-word alias such as a bare abbreviation); for
a multi-word alias the inflection-tolerant pattern turns each whitespace run
into a one-or-more-whitespace matcher and therefore accepts whitespace
variations the exact pattern (a literal) rejects. -/
theorem c9_noninflecting_pattern_equality :
    ∀ (F : List Char → List (List Char)) (al0 : List Char),
      (∀ t ∈ splitRuns isAliasAlphaChar al0, isWordTok t = true →
          genWordForms F t = [pyLower t]) →
      (∀ t ∈ splitRuns isAliasAlphaChar al0, (stripWs t).isEmpty = false) →
      ∀ text, patSearch (mkFlexPattern F al0) text = patSearch (mkExactPattern al0) text := by
  intro F al0 h1 h2 text
  have helems : (mkFlexPattern F al0).elems =
      (splitRuns isAliasAlphaChar al0).map PatElem.lit :=
    flexElems_all_lit F _ h1 h2
  have hflat : (splitRuns isAliasAlphaChar al0).flatten = al0 :=
    (splitRuns_ok isAliasAlphaChar al0).1
  have hmatch : ∀ cs, elemsMatches (mkFlexPattern F al0).elems cs =
      elemsMatches (mkExactPattern al0).elems cs := by
    intro cs
    rw [helems, elemsMatches_map_lit, hflat]
    show _ = elemsMatches [PatElem.lit al0] cs
    rw [elemsMatches_single_lit]
  unfold patSearch
  congr 1
  funext i
  rw [hmatch (text.drop i)]
  rfl

/-- Witness for C9 at a concrete input: a single-word non-inflecting
abbreviation's two patterns agree on a concrete text. -/
theorem c9_noninflecting_pattern_equality_w :
    patSearch (mkFlexPattern F0 ("нк".data)) ("а нк б".data) =
      patSearch (mkExactPattern ("нк".data)) ("а нк б".data) :=
  c9_noninflecting_pattern_equality F0 ("нк".data) (by decide) (by decide) ("а нк б".data)

/-- Counterexample for C9 as stated: the two-word alias «нк рф», all of whose
word tokens are their own sole surface form, matches the text «нк␣␣рф» (two
spaces) with the inflection-tolerant pattern (`\s+` between the words) but
not with the exact pattern (literal single space) — the two patterns do not
match the same set of texts. -/
theorem c9_whitespace_counterexample :
    (∀ t ∈ splitRuns isAliasAlphaChar ("нк рф".data), isWordTok t = true →
        genWordForms F0 t = [pyLower t]) ∧
    patSearch (mkFlexPattern F0 ("нк рф".data)) ("нк  рф".data) = true ∧
    patSearch (mkExactPattern ("нк рф".data)) ("нк  рф".data) = false := by
  refine ⟨by decide, by decide, by decide⟩

/-- C10: when the multi-document path is taken (two or more document
mentions after dedup/sort) and every extracted citation fragment is left
unassigned by the distance-eligibility check (in particular when no fragment
is extracted at all), the extraction entry point returns the empty list —
not a single all-null record. -/
theorem c10_unassigned_empty :
    ∀ (o : RegexOracles) (ℓ : List Char → List Char)
      (ni : List (List Char × List (List Char × Nat))) (es : List AliasEntry)
      (text : List Char),
      2 ≤ (sortMentions (dedupMentions (o.rawMentions text))).length →
      (∀ f ∈ o.fragments text,
          chooseClosest (sortMentions (dedupMentions (o.rawMentions text)))
            f.position = none) →
      parse_legal_reference_multi_law o ℓ ni es text = [] := by
  intro o ℓ ni es text hm hf
  have hrs : (o.fragments text).filterMap (fun f =>
      (chooseClosest (sortMentions (dedupMentions (o.rawMentions text)))
        f.position).map (fun law =>
          CitationRecord.mk (some law) f.article f.point f.subpoint)) = [] := by
    rw [List.filterMap_eq_nil_iff]
    intro f hfm
    rw [hf f hfm]
    rfl
  unfold parse_legal_reference_multi_law
  rw [if_neg (by omega)]
  rw [hrs]
  rfl

/-- Witness for C10 at a concrete input: two mentions, one fragment 387
characters past the nearer mention's end — beyond both windows. -/
theorem c10_unassigned_empty_w :
    parse_legal_reference_multi_law oFar idMorph [] [] [] = [] :=
  c10_unassigned_empty oFar idMorph [] [] [] (by decide) (by decide)

end LawLinks
